import Mathlib

/-!
Verification of the shareroom embedded document store
(`src/API/modules/database.py`, `src/API/models/db_models.py`,
`src/API/modules/direct_messages.py`) against its natural-language
specification.  The Python code is shallowly embedded: machine-level
hashing (`hashlib.sha1`) is implemented over `Nat` with explicit
`% 2^32`, Python runtime values become the inductive `Val`, and the
stateful table file becomes explicit state passing.
-/

set_option maxRecDepth 100000

namespace Shareroom

/-! ## SHA-1 (`hashlib.sha1(...).hexdigest()`) -/

/-- One 32-bit word, kept as a `Nat` reduced mod `2^32`. -/
def M32 : Nat := 4294967296

/-- Left rotation of a 32-bit word. -/
def rotl (n w : Nat) : Nat :=
  ((w <<< n) ||| (w >>> (32 - n))) % M32

/-- UTF-8 encoding of a single character (Python `str.encode()`). -/
def utf8Char (c : Char) : List Nat :=
  let n := c.toNat
  if n < 128 then [n]
  else if n < 2048 then [192 + n / 64, 128 + n % 64]
  else if n < 65536 then [224 + n / 4096, 128 + (n / 64) % 64, 128 + n % 64]
  else [240 + n / 262144, 128 + (n / 4096) % 64, 128 + (n / 64) % 64, 128 + n % 64]

/-- UTF-8 encoding of a string as a byte list. -/
def utf8Bytes (s : String) : List Nat :=
  (s.data.map utf8Char).flatten

/-- Big-endian 8-byte encoding of a length in bits. -/
def be8 (n : Nat) : List Nat :=
  [(n >>> 56) % 256, (n >>> 48) % 256, (n >>> 40) % 256, (n >>> 32) % 256,
   (n >>> 24) % 256, (n >>> 16) % 256, (n >>> 8) % 256, n % 256]

/-- SHA-1 padding: append `0x80`, zero bytes, and the 64-bit bit length. -/
def sha1Pad (msg : List Nat) : List Nat :=
  let l := msg.length
  let zeros := (64 - ((l + 9) % 64)) % 64
  msg ++ [128] ++ List.replicate zeros 0 ++ be8 (8 * l)

/-- Split a byte list into big-endian 32-bit words. -/
def bytesToWords : List Nat → List Nat
  | b0 :: b1 :: b2 :: b3 :: rest =>
      (((b0 * 256 + b1) * 256 + b2) * 256 + b3) :: bytesToWords rest
  | _ => []

/-- Extend the 16 schedule words to 80; `rev` is the reversed prefix built so far. -/
def extendW (rev : List Nat) : Nat → List Nat
  | 0 => rev.reverse
  | n + 1 =>
      extendW
        (rotl 1 (Nat.xor (Nat.xor (rev.getD 2 0) (rev.getD 7 0))
                 (Nat.xor (rev.getD 13 0) (rev.getD 15 0))) :: rev) n

/-- The round function and constant of round `i`. -/
def sha1FK (i b c d : Nat) : Nat × Nat :=
  if i < 20 then ((b &&& c) ||| ((Nat.xor b 4294967295) &&& d), 1518500249)
  else if i < 40 then (Nat.xor (Nat.xor b c) d, 1859775393)
  else if i < 60 then ((b &&& c) ||| (b &&& d) ||| (c &&& d), 2400959708)
  else (Nat.xor (Nat.xor b c) d, 3395469782)

/-- One SHA-1 round. -/
def sha1Round (st : Nat × Nat × Nat × Nat × Nat) (iw : Nat × Nat) :
    Nat × Nat × Nat × Nat × Nat :=
  match st, iw with
  | (a, b, c, d, e), (i, w) =>
      let fk := sha1FK i b c d
      let temp := (rotl 5 a + fk.1 + e + fk.2 + w) % M32
      (temp, a, rotl 30 b, c, d)

/-- Process one 64-byte chunk. -/
def sha1Chunk (h : Nat × Nat × Nat × Nat × Nat) (chunk : List Nat) :
    Nat × Nat × Nat × Nat × Nat :=
  match h with
  | (h0, h1, h2, h3, h4) =>
      let ws := extendW (bytesToWords chunk).reverse 64
      let st := (List.range 80).zip ws |>.foldl sha1Round (h0, h1, h2, h3, h4)
      match st with
      | (a, b, c, d, e) =>
          ((h0 + a) % M32, (h1 + b) % M32, (h2 + c) % M32, (h3 + d) % M32,
           (h4 + e) % M32)

/-- Split a byte list into 64-byte chunks, with structural fuel so that the
kernel can evaluate it. -/
def chunks64Fuel : Nat → List Nat → List (List Nat)
  | 0, _ => []
  | _ + 1, [] => []
  | n + 1, l => l.take 64 :: chunks64Fuel n (l.drop 64)

/-- Split a padded message into 64-byte chunks. -/
def chunks64 (l : List Nat) : List (List Nat) :=
  chunks64Fuel l.length l

/-- The five final SHA-1 state words of a byte message. -/
def sha1Words (msg : List Nat) : List Nat :=
  let fin := (chunks64 (sha1Pad msg)).foldl sha1Chunk
    (1732584193, 4023233417, 2562383102, 271733878, 3285377520)
  match fin with
  | (a, b, c, d, e) => [a, b, c, d, e]

/-- One lowercase hexadecimal digit. -/
def hexDigit (n : Nat) : Char :=
  if n < 10 then Char.ofNat (48 + n) else Char.ofNat (87 + n)

/-- Eight hex digits of a 32-bit word. -/
def hex8 (w : Nat) : List Char :=
  [hexDigit ((w >>> 28) % 16), hexDigit ((w >>> 24) % 16),
   hexDigit ((w >>> 20) % 16), hexDigit ((w >>> 16) % 16),
   hexDigit ((w >>> 12) % 16), hexDigit ((w >>> 8) % 16),
   hexDigit ((w >>> 4) % 16), hexDigit (w % 16)]

/-- `hashlib.sha1(s.encode()).hexdigest()`. -/
def sha1Hex (s : String) : String :=
  String.mk (((sha1Words (utf8Bytes s)).map hex8).flatten)

/-! ## Python runtime values

The values the store handles are JSON-compatible Python values: strings,
ints, bools, lists and `None`.  `Val` equality mirrors Python `==` on
this fragment (cross-type comparisons with the string sentinels are
always false, as in Python). -/

inductive Val where
  | str (s : String)
  | int (n : Int)
  | bool (b : Bool)
  | list (l : List Val)
  | none

mutual

/-- Structural equality on values (Python `==` on this fragment). -/
def Val.beq : Val → Val → Bool
  | .str a, .str b => a == b
  | .int a, .int b => a == b
  | .bool a, .bool b => a == b
  | .list a, .list b => Val.beqList a b
  | .none, .none => true
  | .str _, .int _ => false
  | .str _, .bool _ => false
  | .str _, .list _ => false
  | .str _, .none => false
  | .int _, .str _ => false
  | .int _, .bool _ => false
  | .int _, .list _ => false
  | .int _, .none => false
  | .bool _, .str _ => false
  | .bool _, .int _ => false
  | .bool _, .list _ => false
  | .bool _, .none => false
  | .list _, .str _ => false
  | .list _, .int _ => false
  | .list _, .bool _ => false
  | .list _, .none => false
  | .none, .str _ => false
  | .none, .int _ => false
  | .none, .bool _ => false
  | .none, .list _ => false

/-- Elementwise equality on value lists. -/
def Val.beqList : List Val → List Val → Bool
  | [], [] => true
  | a :: as, b :: bs => Val.beq a b && Val.beqList as bs
  | [], _ :: _ => false
  | _ :: _, [] => false

end

mutual

def Val.eq_of_beq : ∀ (a b : Val), Val.beq a b = true → a = b
  | .str x, .str y, h => congrArg Val.str (by simpa [Val.beq] using h)
  | .int x, .int y, h => congrArg Val.int (by simpa [Val.beq] using h)
  | .bool x, .bool y, h => congrArg Val.bool (by simpa [Val.beq] using h)
  | .list x, .list y, h => congrArg Val.list (Val.eqList_of_beqList x y h)
  | .none, .none, _ => rfl
  | .str _, .int _, h => Bool.noConfusion h
  | .str _, .bool _, h => Bool.noConfusion h
  | .str _, .list _, h => Bool.noConfusion h
  | .str _, .none, h => Bool.noConfusion h
  | .int _, .str _, h => Bool.noConfusion h
  | .int _, .bool _, h => Bool.noConfusion h
  | .int _, .list _, h => Bool.noConfusion h
  | .int _, .none, h => Bool.noConfusion h
  | .bool _, .str _, h => Bool.noConfusion h
  | .bool _, .int _, h => Bool.noConfusion h
  | .bool _, .list _, h => Bool.noConfusion h
  | .bool _, .none, h => Bool.noConfusion h
  | .list _, .str _, h => Bool.noConfusion h
  | .list _, .int _, h => Bool.noConfusion h
  | .list _, .bool _, h => Bool.noConfusion h
  | .list _, .none, h => Bool.noConfusion h
  | .none, .str _, h => Bool.noConfusion h
  | .none, .int _, h => Bool.noConfusion h
  | .none, .bool _, h => Bool.noConfusion h
  | .none, .list _, h => Bool.noConfusion h

def Val.eqList_of_beqList : ∀ (a b : List Val), Val.beqList a b = true → a = b
  | [], [], _ => rfl
  | a :: as, b :: bs, h => by
      have h2 := h
      simp only [Val.beqList, Bool.and_eq_true] at h2
      exact congrArg₂ List.cons (Val.eq_of_beq a b h2.1)
        (Val.eqList_of_beqList as bs h2.2)
  | [], _ :: _, h => Bool.noConfusion h
  | _ :: _, [], h => Bool.noConfusion h

end

mutual

def Val.beq_refl : ∀ (a : Val), Val.beq a a = true
  | .str x => by simp [Val.beq]
  | .int x => by simp [Val.beq]
  | .bool x => by simp [Val.beq]
  | .list x => Val.beqList_refl x
  | .none => rfl

def Val.beqList_refl : ∀ (a : List Val), Val.beqList a a = true
  | [] => rfl
  | a :: as => by
      simp only [Val.beqList, Bool.and_eq_true]
      exact ⟨Val.beq_refl a, Val.beqList_refl as⟩

end

instance : DecidableEq Val := fun a b =>
  if h : Val.beq a b = true then .isTrue (Val.eq_of_beq a b h)
  else .isFalse (fun he => h (he ▸ Val.beq_refl a))

mutual

/-- Python `==` on this fragment.  It differs from the structural
equality `Val.beq` in one point: `bool` is an `int` subclass, so
booleans and ints compare numerically (`True == 1`, `False == 0`).
Lists compare elementwise with `==`; every other cross-type comparison
is false.  This is the comparison the source uses for
`value in current_data` and `current_data.remove(value)` in
`Database.update`. -/
def Val.pyEq : Val → Val → Bool
  | .str a, .str b => a == b
  | .int a, .int b => a == b
  | .bool a, .bool b => a == b
  | .bool a, .int b => (cond a 1 0 : Int) == b
  | .int a, .bool b => a == (cond b 1 0 : Int)
  | .list a, .list b => Val.pyEqList a b
  | .none, .none => true
  | .str _, .int _ => false
  | .str _, .bool _ => false
  | .str _, .list _ => false
  | .str _, .none => false
  | .int _, .str _ => false
  | .int _, .list _ => false
  | .int _, .none => false
  | .bool _, .str _ => false
  | .bool _, .list _ => false
  | .bool _, .none => false
  | .list _, .str _ => false
  | .list _, .int _ => false
  | .list _, .bool _ => false
  | .list _, .none => false
  | .none, .str _ => false
  | .none, .int _ => false
  | .none, .bool _ => false
  | .none, .list _ => false

/-- Python `==` on lists: equal length and elementwise `==`. -/
def Val.pyEqList : List Val → List Val → Bool
  | [], [] => true
  | a :: as, b :: bs => Val.pyEq a b && Val.pyEqList as bs
  | [], _ :: _ => false
  | _ :: _, [] => false

end

/-- `db_models.NOT_REQUIRED` -/
def NOT_REQUIRED : String := "_NOTREQ"

/-- `db_models.KEY_AS_UUID4` -/
def KEY_AS_UUID4 : String := "_UUID4KEY"

/-- `database.UNDEFINED_DEFAULT_VALUE` -/
def UNDEFINED_DEFAULT_VALUE : String := "_NOTDEF"

/-- The declared type of a column (the `type_` of `database.Column`);
`annotations` in the repository only ever use `str`, `int`, `bool`, `list`. -/
inductive Ty where
  | str
  | int
  | bool
  | list
deriving DecidableEq

/-- `type_()` — the zero value of a Python type constructor called with
no argument. -/
def tyZero : Ty → Val
  | .str => .str ""
  | .int => .int 0
  | .bool => .bool false
  | .list => .list []

/-- Python `isinstance(value, type_)`.  Note that `bool` is a subclass of
`int` in Python, so a bool value is an instance of `int`. -/
def isinst : Val → Ty → Bool
  | .str _, .str => true
  | .int _, .int => true
  | .bool _, .int => true
  | .bool _, .bool => true
  | .list _, .list => true
  | _, _ => false

/-- Python `isinstance(value, typing.Iterable)` on this value fragment:
strings and lists are iterable, ints, bools and `None` are not. -/
def isIterable : Val → Bool
  | .str _ => true
  | .list _ => true
  | _ => false

/-- The exceptions the store can raise: `KeyNotFound` and
`RequiredValueNotProvided` from `database.py`, plus the builtin Python
exceptions the code lets propagate (`TypeError`/`ValueError` from failed
casts or constructor calls, `AttributeError` from `getattr`, and
`json.JSONDecodeError`). -/
inductive DBErr where
  | keyNotFound
  | requiredValueNotProvided
  | typeError
  | attributeError
  | jsonDecodeError
deriving DecidableEq

/-- Python truthiness, used by the `bool(...)` cast. -/
def truthy : Val → Bool
  | .str s => !(s == "")
  | .int n => !(n == 0)
  | .bool b => b
  | .list l => !l.isEmpty
  | .none => false

/-- `str(value)` on a shallow value (helper for `pyStr`). -/
def pyStrShallow : Val → String
  | .str s => s
  | .int n => toString n
  | .bool b => cond b "True" "False"
  | .list _ => "[...]"
  | .none => "None"

/-- Python `str(value)`.  For lists the element reprs are abbreviated to
their `str` forms (no claim exercises the exact repr of a cast list). -/
def pyStr : Val → String
  | .str s => s
  | .int n => toString n
  | .bool b => cond b "True" "False"
  | .list l => "[" ++ String.intercalate ", " (l.map pyStrShallow) ++ "]"
  | .none => "None"

/-- Python `type_(value)` for a value that is not `None` and not already
an instance of the type: the cast attempted by `Column.prepare_value`.
A `TypeError`/`ValueError` raised by the constructor is `DBErr.typeError`. -/
def castVal (t : Ty) (v : Val) : Except DBErr Val :=
  match t with
  | .str => .ok (.str (pyStr v))
  | .int =>
      match v with
      | .str s => match s.toInt? with
        | some n => .ok (.int n)
        | Option.none => .error .typeError
      | .bool b => .ok (.int (cond b 1 0))
      | .int n => .ok (.int n)
      | _ => .error .typeError
  | .bool => .ok (.bool (truthy v))
  | .list =>
      match v with
      | .str s => .ok (.list (s.data.map (fun c => Val.str (String.mk [c]))))
      | .list l => .ok (.list l)
      | _ => .error .typeError

/-! ## `database.Column` -/

/-- `database.Column`: name, declared type and default value.  The
default is the *class attribute* of the model class when one exists
(`Database.__build_from_model`), so an optional field declared
`name: type = NOT_REQUIRED` has the sentinel string itself as default;
a field with no class attribute gets `UNDEFINED_DEFAULT_VALUE`. -/
structure Column where
  name : String
  type_ : Ty
  default : Val := Val.str UNDEFINED_DEFAULT_VALUE
deriving DecidableEq

/-- `Column.prepare_value` from `database.py`, line for line:
sentinel check first, then `None` check, then the isinstance/cast. -/
def Column.prepare_value (c : Column) (value : Val) : Except DBErr Val :=
  if value = Val.str NOT_REQUIRED then
    .ok (if c.default = Val.str UNDEFINED_DEFAULT_VALUE then tyZero c.type_
         else c.default)
  else if value = Val.none then
    if c.default ≠ Val.str UNDEFINED_DEFAULT_VALUE then .ok (tyZero c.type_)
    else .error .requiredValueNotProvided
  else if ¬ isinst value c.type_ then castVal c.type_ value
  else .ok value

/-- `Column.validate`. -/
def Column.validate (c : Column) (value : Val) : Bool :=
  isinst value c.type_

/-! ## Documents and tables

A document is a Python dict of field name to value and a table file body
is a Python dict of key to document; both are modelled as association
lists in insertion order with unique keys, exactly dict semantics. -/

abbrev Doc := List (String × Val)

abbrev Table := List (String × Doc)

/-- Python dict lookup (`d.get(k)`), also `getattr` on a model object:
both documents and table bodies are dicts keyed by strings. -/
def dget {α : Type} (m : List (String × α)) (f : String) : Option α :=
  (m.find? (fun p => p.1 = f)).map (fun p => p.2)

/-- `hasattr(model_object, field)` / `key in dict`. -/
def hasField {α : Type} (m : List (String × α)) (f : String) : Bool :=
  m.any (fun p => p.1 = f)

/-- In-place replacement (`setattr` on an existing field): preserves key
order, no-op on a missing key. -/
def dset {α : Type} (m : List (String × α)) (f : String) (v : α) :
    List (String × α) :=
  m.map (fun p => if p.1 = f then (f, v) else p)

/-- Python dict assignment `d[k] = v`: replace in place if the key
exists, else append. -/
def tset {α : Type} (t : List (String × α)) (k : String) (v : α) :
    List (String × α) :=
  if t.any (fun p => p.1 = k) then dset t k v
  else t ++ [(k, v)]

/-- `db_content.pop(key)`. -/
def tdel {α : Type} (t : List (String × α)) (k : String) :
    List (String × α) :=
  t.filter (fun p => ¬ p.1 = k)

/-! ## `database.Database` -/

/-- The per-table state of a `Database` object: the parsed model
(`DBModel`) attributes copied in `Database.__init__` plus the built
columns.  The file path is represented by the explicit `FsState` passed
to the file-level operations. -/
structure DB where
  name : String
  key_provider : String
  allow_invalid_values : Bool
  dump_on_error : Bool
  columns : List Column
deriving DecidableEq

/-- Python `s.startswith(c)` for a one-character prefix (structural on
the character list, so the kernel can evaluate it). -/
def pyStartsWith (s : String) (c : Char) : Bool :=
  match s.data with
  | [] => false
  | a :: _ => a = c

/-- Python `s.removeprefix(c)` for a one-character prefix. -/
def pyRemovePrefix (s : String) (c : Char) : String :=
  match s.data with
  | a :: rest => if a = c then String.mk rest else s
  | [] => s

/-- Python `s.split(sep)` on a character list. -/
def pySplitChars (sep : Char) : List Char → List (List Char)
  | [] => [[]]
  | a :: rest =>
      let r := pySplitChars sep rest
      if a = sep then [] :: r
      else
        match r with
        | h :: t => (a :: h) :: t
        | [] => [[a]]

/-- Python `s.split(sep)` for a one-character separator. -/
def pySplit (s : String) (sep : Char) : List String :=
  (pySplitChars sep s.data).map String.mk

/-- `database.parse_key_provider`.  `uuid4hex` stands for the fresh
`uuid.uuid4().hex` drawn on a random-rule insert.  A named attribute
missing from the model raises `AttributeError`; a non-string attribute
value makes the concatenation/`.encode()` raise, modelled as
`typeError`. -/
def parse_key_provider (key_provider : String) (model : Doc) (uuid4hex : String) :
    Except DBErr String := do
  if key_provider = KEY_AS_UUID4 then
    return uuid4hex
  let no_hash := pyStartsWith key_provider '!'
  let kp := pyRemovePrefix key_provider '!'
  let key_seed ←
    if kp.data.contains '+' then
      (pySplit kp '+').foldlM
        (fun acc attr =>
          match dget model attr with
          | some (Val.str s) => .ok (acc ++ s)
          | some _ => .error .typeError
          | Option.none => .error .attributeError)
        ""
    else
      match dget model kp with
      | some (Val.str s) => .ok s
      | some _ => .error .typeError
      | Option.none => .error .attributeError
  if no_hash then
    return key_seed
  return sha1Hex key_seed

/-- The dataclass constructor `self.__model(**object_content)`: reject
unexpected keyword arguments, take provided values, fill missing fields
from the class defaults, and raise `TypeError` when a field with no
default is missing.  A field's class default is exactly the column's
default (both come from `getattr(model_cls, field)`), with
`UNDEFINED_DEFAULT_VALUE` standing for "no default".
`modelFields` is the per-field part: provided value, else class default,
else `TypeError` for a missing required argument. -/
def modelFields (content : Doc) : List Column → Except DBErr Doc
  | [] => .ok []
  | c :: cs => do
      let v ←
        match dget content c.name with
        | some v => Except.ok v
        | Option.none =>
            if c.default = Val.str UNDEFINED_DEFAULT_VALUE then .error .typeError
            else .ok c.default
      let rest ← modelFields content cs
      .ok ((c.name, v) :: rest)

def modelFromContent (db : DB) (content : Doc) : Except DBErr Doc :=
  if content.all (fun p => db.columns.any (fun c => c.name = p.1)) then
    modelFields content db.columns
  else .error .typeError

/-- The body of `Database.__save_model`'s per-column loop for one value:
prepare, validate, and on validation failure fall back to the default,
the type's zero value (when `allow_invalid_values`), or abort the save
(`.ok Option.none` models the silent `return`). -/
def saveColumnValue (db : DB) (column : Column) (value : Val) :
    Except DBErr (Option Val) := do
  let v ← column.prepare_value value
  if column.validate v then
    return some v
  else if column.default ≠ Val.str UNDEFINED_DEFAULT_VALUE then
    return some column.default
  else if db.allow_invalid_values then
    return some (tyZero column.type_)
  else
    return Option.none

/-- The `for column_name, value in asdict(model).items()` loop of
`Database.__save_model`: build the content dict, aborting the whole save
on the first column that fails with no escape.  `self.columns.get`
returning `None` makes `None.prepare_value(...)` raise
`AttributeError`. -/
def saveModelContent (db : DB) : Doc → Except DBErr (Option Doc)
  | [] => .ok (some [])
  | (column_name, value) :: rest =>
      match db.columns.find? (fun c => c.name = column_name) with
      | Option.none => .error .attributeError
      | some column => do
          match ← saveColumnValue db column value with
          | Option.none => .ok Option.none
          | some v =>
              match ← saveModelContent db rest with
              | Option.none => .ok Option.none
              | some content => .ok (some ((column_name, v) :: content))

/-- `Database.__save_model`: derive the key when none is given, run the
column loop, then write the entry into the table.  Returns the new table
and the key, or `Option.none` when the model was not saved. -/
def saveModel (db : DB) (t : Table) (model : Doc) (db_key? : Option String)
    (uuid4hex : String) : Except DBErr (Option (String × Table)) := do
  let db_key ←
    match db_key? with
    | some k => .ok k
    | Option.none => parse_key_provider db.key_provider model uuid4hex
  match ← saveModelContent db model with
  | Option.none => .ok Option.none
  | some content => .ok (some (db_key, tset t db_key content))

/-- `Database.insert`. -/
def insert (db : DB) (t : Table) (data : Doc) (uuid4hex : String) :
    Except DBErr (Option (String × Table)) :=
  saveModel db t data Option.none uuid4hex

/-- `Database.get` (the `_key` tag is the key the caller already holds,
so it is not part of the returned document). -/
def get (db : DB) (t : Table) (key : String) : Except DBErr Doc :=
  match dget t key with
  | Option.none => .error .keyNotFound
  | some object_content => modelFromContent db object_content

/-- The `for key_name, value in changes.items()` loop of
`Database.update`; `Option.none` models the early `return` when an
`iter_pop` value is not found in the current list. -/
def updateLoop (iter_append iter_pop : Bool) (m : Doc) :
    List (String × Val) → Option Doc
  | [] => some m
  | (key_name, value) :: rest =>
      if ¬ hasField m key_name then
        updateLoop iter_append iter_pop m rest
      else
        let value1 :=
          if iter_append && isIterable value then
            match dget m key_name with
            | some (Val.list current_data) => Val.list (current_data ++ [value])
            | _ => value
          else value
        if iter_pop && isIterable value then
          match dget m key_name with
          | some (Val.list current_data) =>
              if current_data.any (fun x => Val.pyEq x value) then
                updateLoop iter_append iter_pop
                  (dset m key_name
                    (Val.list (current_data.eraseP (fun x => Val.pyEq x value))))
                  rest
              else
                Option.none
          | _ => updateLoop iter_append iter_pop (dset m key_name value1) rest
        else updateLoop iter_append iter_pop (dset m key_name value1) rest

/-- `Database.update`.  Both flags set, a pop of a missing value, and a
silently aborted save all leave the table unchanged (the method logs and
returns without persisting). -/
def update (db : DB) (t : Table) (key : String) (changes : List (String × Val))
    (iter_append iter_pop : Bool) : Except DBErr Table := do
  if iter_append && iter_pop then
    return t
  let model_object ← get db t key
  match updateLoop iter_append iter_pop model_object changes with
  | Option.none => .ok t
  | some m2 =>
      match ← saveModel db t m2 (some key) "" with
      | Option.none => .ok t
      | some (_, t2) => .ok t2

/-- `Database.delete`. -/
def delete (db : DB) (t : Table) (key : String) : Except DBErr Table :=
  if (dget t key).isNone then .error .keyNotFound
  else .ok (tdel t key)

/-- `Database.get_all_models` (each model is rebuilt through the
dataclass constructor, as in `get`). -/
def get_all_models (db : DB) : Table → Except DBErr (List Doc)
  | [] => .ok []
  | p :: rest => do
      let model ← modelFromContent db p.2
      let models ← get_all_models db rest
      .ok (model :: models)

/-- `Database.get_all_keys`. -/
def get_all_keys (t : Table) : List String :=
  t.map (fun p => p.1)

/-! ## File persistence and recovery

`modules/paths.py` is not part of the sources, so the file layer is
modelled from the spec: a table file either does not exist, holds a
parseable JSON object (kept in parsed form), or holds unparseable raw
bytes; `get_json_content` raises `json.JSONDecodeError` on the latter,
and the sibling dump file accumulates appended timestamped dumps. -/

inductive TableFile where
  | missing
  | good (t : Table)
  | corrupt (raw : String)
deriving DecidableEq

/-- The on-disk state owned by one table: its file and its sibling
`.dump` file content. -/
structure FsState where
  file : TableFile
  dump : String
deriving DecidableEq

/-- Modelled from the spec: `Path.get_json_content` from the missing
`modules/paths.py` — parse the table file, raising `JSONDecodeError` on
unparseable content (`Database.__get_db_content`). -/
def get_db_content : TableFile → Except DBErr Table
  | .good t => .ok t
  | .corrupt _ => .error .jsonDecodeError
  | .missing => .error .attributeError

/-- `Database.__ensure_db_file`, run during `Database.__init__`: create a
blank file, or on a parse failure with `dump_on_error` append the
timestamped raw content to the sibling dump file (modelled from the
spec: `Path.write` appends) and reset the live file to an empty object;
without `dump_on_error` re-raise.  Returns the outcome and the
(possibly) written state. -/
def ensure_db_file (db : DB) (st : FsState) (ts : String) :
    Except DBErr Unit × FsState :=
  match st.file with
  | .missing => (.ok (), { st with file := .good [] })
  | .good _ => (.ok (), st)
  | .corrupt raw =>
      if ¬ db.dump_on_error then (.error .jsonDecodeError, st)
      else
        (.ok (),
         { file := .good [],
           dump := st.dump ++ "\n\n--- DUMP: " ++ ts ++ " ---\n" ++ raw })

/-- `Database.get` at the file level: parse, then look up.  The pair
carries the resulting state so that "performs no write" is a statement
of the model. -/
def getF (db : DB) (st : FsState) (key : String) : Except DBErr Doc × FsState :=
  match get_db_content st.file with
  | .error e => (.error e, st)
  | .ok t => (get db t key, st)

/-- `Database.get_all_keys` at the file level. -/
def get_all_keysF (st : FsState) : Except DBErr (List String) × FsState :=
  match get_db_content st.file with
  | .error e => (.error e, st)
  | .ok t => (.ok (get_all_keys t), st)

/-- `Database.get_all_models` at the file level. -/
def get_all_modelsF (db : DB) (st : FsState) :
    Except DBErr (List Doc) × FsState :=
  match get_db_content st.file with
  | .error e => (.error e, st)
  | .ok t => (get_all_models db t, st)

/-- `Database.delete` at the file level: the raise happens before any
write, a successful pop rewrites the file. -/
def deleteF (db : DB) (st : FsState) (key : String) :
    Except DBErr Unit × FsState :=
  match get_db_content st.file with
  | .error e => (.error e, st)
  | .ok t =>
      match delete db t key with
      | .error e => (.error e, st)
      | .ok t2 => (.ok (), { st with file := .good t2 })

/-- `Database.update` at the file level. -/
def updateF (db : DB) (st : FsState) (key : String)
    (changes : List (String × Val)) (iter_append iter_pop : Bool) :
    Except DBErr Unit × FsState :=
  match get_db_content st.file with
  | .error e => (.error e, st)
  | .ok t =>
      match update db t key changes iter_append iter_pop with
      | .error e => (.error e, st)
      | .ok t2 => (.ok (), { st with file := .good t2 })

/-! ## `DBModel` declarations and the `Database` registry -/

/-- What `DBModel` records about a declared model class:
`__annotations__` in declaration order and the class attributes
(the dataclass defaults readable through `getattr`). -/
structure ModelSchema where
  name : String
  key_provider : String
  allow_invalid_values : Bool
  dump_on_error : Bool
  fields : List (String × Ty)
  classDefaults : List (String × Val)

/-- `Database.__build_from_model`: one column per annotated field, using
the class attribute as default when `hasattr` holds. -/
def build_from_model (m : ModelSchema) : List Column :=
  m.fields.map (fun p =>
    match (m.classDefaults.find? (fun q => q.1 = p.1)).map (fun q => q.2) with
    | some d => { name := p.1, type_ := p.2, default := d }
    | Option.none => { name := p.1, type_ := p.2 })

/-- `Database.register`. -/
abbrev Registry := List (String × DB)

/-- `Database.get_database`. -/
def get_database (register : Registry) (name : String) : Option DB :=
  (register.find? (fun p => p.1 = name)).map (fun p => p.2)

/-- `Database.__init__`: copy the model attributes onto the fresh object
(`columns = {}`), and if the name is already registered, log and return
— the statement `self = Database.register.get(self.name)` rebinds a
local name only, so the caller's variable keeps the fresh, half-built
object while the registry keeps the original.  Otherwise build the
columns, register, and hand the caller the built object.  The
`__ensure_db_file` call of the first initialization is covered by
`ensure_db_file` separately. -/
def dbInit (register : Registry) (m : ModelSchema) : Registry × DB :=
  let self0 : DB :=
    { name := m.name, key_provider := m.key_provider,
      allow_invalid_values := m.allow_invalid_values,
      dump_on_error := m.dump_on_error, columns := [] }
  if register.any (fun p => p.1 = m.name) then
    (register, self0)
  else
    let self1 := { self0 with columns := build_from_model m }
    (register ++ [(m.name, self1)], self1)

/-! ## `direct_messages.create_relation_id` -/

/-- `direct_messages.create_relation_id`: sum the character codes of both
keys, add, stringify, hash. -/
def create_relation_id (user_a_db_key user_b_db_key : String) : String :=
  let hash_a := (user_a_db_key.data.map (fun char => char.toNat)).sum
  let hash_b := (user_b_db_key.data.map (fun char => char.toNat)).sum
  let seed := hash_a + hash_b
  sha1Hex (toString seed)

/-! ## Concrete tables and claim-side helper definitions -/

/-- The table of the spec's concrete scenario (§8): schema
`{name: str (required), max_users: int = 5, members: list}` with the
optional list field declared, as the model system requires, via
`members: list = NOT_REQUIRED`; key rule = hash of `name`. -/
def claim1DB : DB :=
  { name := "rooms_like", key_provider := "name",
    allow_invalid_values := false, dump_on_error := true,
    columns :=
      [{ name := "name", type_ := .str },
       { name := "max_users", type_ := .int, default := .int 5 },
       { name := "members", type_ := .list, default := .str NOT_REQUIRED }] }

/-- A one-column table with an optional list field (the shape of
`UserModel.friends` / `RoomModel.members`), with a passthrough key. -/
def listDB : DB :=
  { name := "listdb", key_provider := "!k",
    allow_invalid_values := true, dump_on_error := true,
    columns := [{ name := "items", type_ := .list, default := .str NOT_REQUIRED }] }

/-- A one-column table with a required string field hashed into the key
(the shape of `UserModel.username`). -/
def nameDB : DB :=
  { name := "namedb", key_provider := "name",
    allow_invalid_values := true, dump_on_error := true,
    columns := [{ name := "name", type_ := .str }] }

/-- The schema of `UserModel` as `Database.__init__` reads it (used for
the registry claims). -/
def usersSchema : ModelSchema :=
  { name := "users", key_provider := "username",
    allow_invalid_values := true, dump_on_error := true,
    fields := [("username", .str), ("password", .str)],
    classDefaults := [] }

/-- The field names a hash key rule names, in declared order (the
attribute list `parse_key_provider` iterates). -/
def ruleNamedFields (key_provider : String) : List String :=
  if key_provider.data.contains '+' then pySplit key_provider '+'
  else [key_provider]

/-- Concatenation of a list of strings, in order, with no separator. -/
def strConcat : List String → String
  | [] => ""
  | s :: rest => s ++ strConcat rest

/-- The string value of a named model field (empty for a missing or
non-string field; the claims only use it under the hypothesis that the
named fields are strings). -/
def fieldStr (model : Doc) (attr : String) : String :=
  match dget model attr with
  | some (Val.str s) => s
  | _ => ""

/-- The spec's key seed for a hash rule: the concatenation, in the
rule's declared order with no separator, of the named fields' values. -/
def ruleKeySeed (model : Doc) (key_provider : String) : String :=
  strConcat ((ruleNamedFields key_provider).map (fieldStr model))

/-- Decidable form of "every field the rule names holds a string". -/
def allStrFields (model : Doc) (attrs : List String) : Bool :=
  attrs.all (fun a =>
    match dget model a with
    | some (Val.str _) => true
    | _ => false)

/-- All characters of a string are lowercase hex digits. -/
def isHexStr (s : String) : Bool :=
  s.data.all (fun c => "0123456789abcdef".data.contains c)

/-- The schema-shape invariant of a table file: every stored document has
values for exactly the schema's declared fields, in declaration order. -/
def SchemaShaped (db : DB) (t : Table) : Prop :=
  ∀ p ∈ t, p.2.map (fun q => q.1) = db.columns.map (fun c => c.name)

instance (db : DB) (t : Table) : Decidable (SchemaShaped db t) :=
  List.decidableBAll _ t

/-! ## Association-list (Python dict) lemmas -/

section DictLemmas

variable {α : Type}

theorem names_dset (t : List (String × α)) (k : String) (v : α) :
    (dset t k v).map (fun p => p.1) = t.map (fun p => p.1) := by
  induction t with
  | nil => rfl
  | cons p rest ih =>
    by_cases hp : p.1 = k
    · simpa [dset, hp] using ih
    · simpa [dset, hp] using ih

theorem hasField_dset (t : List (String × α)) (k j : String) (v : α) :
    hasField (dset t k v) j = hasField t j := by
  induction t with
  | nil => rfl
  | cons p rest ih =>
    have ih2 : (dset rest k v).any (fun p => decide (p.1 = j)) =
        rest.any (fun p => decide (p.1 = j)) := by
      simpa [hasField] using ih
    by_cases hp : p.1 = k
    · rw [show dset (p :: rest) k v = (k, v) :: dset rest k v by
            simp [dset, hp]]
      simp only [hasField, List.any_cons]
      rw [hp, ih2]
    · rw [show dset (p :: rest) k v = p :: dset rest k v by simp [dset, hp]]
      simp only [hasField, List.any_cons]
      rw [ih2]

theorem dget_dset_ne (t : List (String × α)) (k j : String) (v : α)
    (hne : j ≠ k) : dget (dset t k v) j = dget t j := by
  induction t with
  | nil => rfl
  | cons p rest ih =>
    by_cases hp : p.1 = k
    · have h1 : ¬ ((k, v).1 = j) := fun he => hne (Eq.symm he)
      have h2 : ¬ (p.1 = j) := fun he => hne (Eq.symm (hp ▸ he))
      rw [show dset (p :: rest) k v = (k, v) :: dset rest k v by
            simp [dset, hp]]
      rw [dget, List.find?_cons_of_neg _ (by simpa using h1)]
      rw [dget, List.find?_cons_of_neg _ (by simpa using h2)]
      exact ih
    · by_cases hj : p.1 = j
      · rw [show dset (p :: rest) k v = p :: dset rest k v by simp [dset, hp]]
        rw [dget, List.find?_cons_of_pos _ (by simpa using hj)]
        rw [dget, List.find?_cons_of_pos _ (by simpa using hj)]
      · rw [show dset (p :: rest) k v = p :: dset rest k v by simp [dset, hp]]
        rw [dget, List.find?_cons_of_neg _ (by simpa using hj)]
        rw [dget, List.find?_cons_of_neg _ (by simpa using hj)]
        exact ih

theorem dget_dset_self (t : List (String × α)) (k : String) (v : α)
    (h : hasField t k = true) : dget (dset t k v) k = some v := by
  induction t with
  | nil => simp [hasField] at h
  | cons p rest ih =>
    by_cases hp : p.1 = k
    · rw [show dset (p :: rest) k v = (k, v) :: dset rest k v by
            simp [dset, hp]]
      rw [dget, List.find?_cons_of_pos _ (by simp)]
      rfl
    · have h2 : hasField rest k = true := by
        simp only [hasField, List.any_cons, Bool.or_eq_true,
          decide_eq_true_eq] at h
        rcases h with h | h
        · exact absurd h hp
        · simpa [hasField] using h
      rw [show dset (p :: rest) k v = p :: dset rest k v by simp [dset, hp]]
      rw [dget, List.find?_cons_of_neg _ (by simpa using hp)]
      exact ih h2

theorem dget_none_of_not_hasField (t : List (String × α)) (k : String)
    (h : hasField t k = false) : dget t k = Option.none := by
  induction t with
  | nil => rfl
  | cons p rest ih =>
    simp only [hasField, List.any_cons, Bool.or_eq_false_iff,
      decide_eq_false_iff_not] at h
    rw [dget, List.find?_cons_of_neg _ (by simpa using h.1)]
    exact ih (by simpa [hasField] using h.2)

theorem dget_some_of_hasField (t : List (String × α)) (k : String)
    (h : hasField t k = true) : ∃ v, dget t k = some v := by
  induction t with
  | nil => simp [hasField] at h
  | cons p rest ih =>
    by_cases hp : p.1 = k
    · exact ⟨p.2, by rw [dget, List.find?_cons_of_pos _ (by simpa using hp)]; rfl⟩
    · have h2 : hasField rest k = true := by
        simp only [hasField, List.any_cons, Bool.or_eq_true,
          decide_eq_true_eq] at h
        rcases h with h | h
        · exact absurd h hp
        · simpa [hasField] using h
      obtain ⟨v, hv⟩ := ih h2
      exact ⟨v, by rw [dget, List.find?_cons_of_neg _ (by simpa using hp)]
                   exact hv⟩

theorem dget_tset_self (t : List (String × α)) (k : String) (v : α) :
    dget (tset t k v) k = some v := by
  unfold tset
  by_cases h : t.any (fun p => p.1 = k)
  · rw [if_pos h]
    exact dget_dset_self t k v h
  · rw [if_neg h]
    induction t with
    | nil =>
      rw [List.nil_append, dget, List.find?_cons_of_pos _ (by simp)]
      rfl
    | cons p rest ih =>
      simp only [List.any_cons, Bool.or_eq_true, decide_eq_true_eq,
        not_or] at h
      rw [List.cons_append, dget, List.find?_cons_of_neg _ (by simpa using h.1)]
      exact ih (by simpa using h.2)

theorem dget_tset_ne (t : List (String × α)) (k j : String) (v : α)
    (hne : j ≠ k) : dget (tset t k v) j = dget t j := by
  unfold tset
  by_cases h : t.any (fun p => p.1 = k)
  · rw [if_pos h]
    exact dget_dset_ne t k j v hne
  · rw [if_neg h]
    induction t with
    | nil =>
      rw [List.nil_append, dget, List.find?_cons_of_neg _ (by simpa using hne.symm)]
      rfl
    | cons p rest ih =>
      simp only [List.any_cons, Bool.or_eq_true, decide_eq_true_eq,
        not_or] at h
      by_cases hj : p.1 = j
      · rw [List.cons_append, dget, List.find?_cons_of_pos _ (by simpa using hj)]
        rw [dget, List.find?_cons_of_pos _ (by simpa using hj)]
      · rw [List.cons_append, dget, List.find?_cons_of_neg _ (by simpa using hj)]
        rw [dget, List.find?_cons_of_neg _ (by simpa using hj)]
        exact ih (by simpa using h.2)

theorem dget_tdel_self (t : List (String × α)) (k : String) :
    dget (tdel t k) k = Option.none := by
  induction t with
  | nil => rfl
  | cons p rest ih =>
    by_cases hp : p.1 = k
    · simpa [tdel, hp] using ih
    · rw [show tdel (p :: rest) k = p :: tdel rest k by simp [tdel, hp]]
      rw [dget, List.find?_cons_of_neg _ (by simpa using hp)]
      exact ih

theorem mem_of_mem_tdel (t : List (String × α)) (k : String)
    (p : String × α) (h : p ∈ tdel t k) : p ∈ t :=
  List.mem_of_mem_filter h

theorem dget_eq_some_of_mem (t : List (String × α)) (g : String) (w : α)
    (hn : (t.map (fun p => p.1)).Nodup) (hmem : (g, w) ∈ t) :
    dget t g = some w := by
  induction t with
  | nil => simp at hmem
  | cons p rest ih =>
    simp only [List.map_cons, List.nodup_cons] at hn
    rcases List.mem_cons.mp hmem with he | hmem2
    · subst he
      rw [dget, List.find?_cons_of_pos _ (by simp)]
      rfl
    · have hg : ¬ p.1 = g := by
        intro he
        exact hn.1 (he ▸ (List.mem_map.mpr ⟨(g, w), hmem2, rfl⟩))
      rw [dget, List.find?_cons_of_neg _ (by simpa using hg)]
      exact ih hn.2 hmem2

theorem mem_of_dget_eq_some (t : List (String × α)) (g : String) (w : α)
    (h : dget t g = some w) : (g, w) ∈ t := by
  induction t with
  | nil => simp [dget] at h
  | cons p rest ih =>
    by_cases hp : p.1 = g
    · rw [dget, List.find?_cons_of_pos _ (by simpa using hp)] at h
      simp only [Option.map_some', Option.some.injEq] at h
      refine List.mem_cons.mpr (Or.inl ?_)
      cases p
      cases h
      simpa using hp.symm
    · rw [dget, List.find?_cons_of_neg _ (by simpa using hp)] at h
      exact List.mem_cons.mpr (Or.inr (ih h))

end DictLemmas

/-! ## Claim C9 -/

/-- Claim C9: for every pair of identifier strings `a` and `b`,
`create_relation_id a b = create_relation_id b a` — the seed, the sum of
the character codes of both identifiers, is order-independent before
hashing. -/
theorem c9_relation_id_symmetric (a b : String) :
    create_relation_id a b = create_relation_id b a :=
  congrArg (fun n : Nat => sha1Hex (toString n))
    (Nat.add_comm ((a.data.map (fun char => char.toNat)).sum)
      ((b.data.map (fun char => char.toNat)).sum))

/-! ## Claim C5 -/

/-- Claim C5 (code bug): registering `usersSchema` twice keeps the
registry mapping the name to the original, fully built handle, but the
value the second caller receives is *not* that handle: the statement
`self = Database.register.get(self.name)` in `Database.__init__` rebinds
a local name only, so the second construction hands back a fresh object
with empty `columns` and no file initialization. -/
theorem c5_reregistration_returns_half_built_handle :
    (dbInit (dbInit [] usersSchema).1 usersSchema).1 = (dbInit [] usersSchema).1 ∧
    get_database (dbInit (dbInit [] usersSchema).1 usersSchema).1 "users" =
      some (dbInit [] usersSchema).2 ∧
    (dbInit (dbInit [] usersSchema).1 usersSchema).2.columns = [] ∧
    (dbInit [] usersSchema).2.columns ≠ [] ∧
    (dbInit (dbInit [] usersSchema).1 usersSchema).2 ≠ (dbInit [] usersSchema).2 := by
  refine ⟨rfl, rfl, rfl, by decide, by decide⟩

/-! ## Claim C1 -/

/-- Claim C1 (code bug): on the spec's concrete schema, inserting
`{name: "lobby"}` does return the 40-hex-character key
`SHA-1("lobby")`, and `get` of that key yields `name = "lobby"` and
`max_users = 5`; but the omitted optional list field comes back as the
literal sentinel string `"_NOTREQ"`, not as `[]` — the column default
recorded for a `list = NOT_REQUIRED` field is the sentinel itself, so
the zero-value substitution the spec describes never fires. -/
theorem c1_default_filling_round_trip :
    modelFromContent claim1DB [("name", Val.str "lobby")] =
      .ok [("name", Val.str "lobby"), ("max_users", Val.int 5),
           ("members", Val.str "_NOTREQ")] ∧
    insert claim1DB []
      [("name", Val.str "lobby"), ("max_users", Val.int 5),
       ("members", Val.str "_NOTREQ")] "" =
      .ok (some ("6dc57172bc0a4be0aca7c20783625d72fce90b5e",
        [("6dc57172bc0a4be0aca7c20783625d72fce90b5e",
          [("name", Val.str "lobby"), ("max_users", Val.int 5),
           ("members", Val.str "_NOTREQ")])])) ∧
    sha1Hex "lobby" = "6dc57172bc0a4be0aca7c20783625d72fce90b5e" ∧
    ("6dc57172bc0a4be0aca7c20783625d72fce90b5e" : String).length = 40 ∧
    get claim1DB
      [("6dc57172bc0a4be0aca7c20783625d72fce90b5e",
        [("name", Val.str "lobby"), ("max_users", Val.int 5),
         ("members", Val.str "_NOTREQ")])]
      "6dc57172bc0a4be0aca7c20783625d72fce90b5e" =
      .ok [("name", Val.str "lobby"), ("max_users", Val.int 5),
           ("members", Val.str "_NOTREQ")] ∧
    Val.str "_NOTREQ" ≠ Val.list [] := by
  refine ⟨by rfl, by rfl, by rfl, by rfl, by rfl, by decide⟩

/-! ## Claim C2 -/

/-- Claim C2, counterexample: on a table with `dump_on_error = true`
whose file holds unparseable content, a read operation (`get`) raises
`JSONDecodeError` and leaves both files exactly as they were — the table
file is *not* reset to an empty object and no quarantine dump is
produced, contrary to the claim. -/
theorem c2_counterexample_read_does_not_recover :
    listDB.dump_on_error = true ∧
    getF listDB { file := .corrupt "not json", dump := "" } "k" =
      (.error .jsonDecodeError, { file := .corrupt "not json", dump := "" }) ∧
    TableFile.corrupt "not json" ≠ TableFile.good [] := by
  refine ⟨rfl, rfl, by decide⟩

/-- Claim C2, amended: corruption recovery happens only in
`Database.__ensure_db_file`, which runs during table construction: there,
with `dump_on_error = true`, the table file is reset to an empty object
and the dump file gets the original raw content appended after a
timestamp header; with `dump_on_error = false` the parse error
propagates and nothing is written.  Read operations (`get`,
`get_all_keys`, `get_all_models`) on a corrupt file raise the parse
error and write nothing, whatever the flag. -/
theorem c2_recovery_only_at_initialization
    (db : DB) (st : FsState) (raw ts k : String)
    (hc : st.file = .corrupt raw) :
    (db.dump_on_error = true →
      ensure_db_file db st ts =
        (.ok (), { file := .good [],
                   dump := st.dump ++ "\n\n--- DUMP: " ++ ts ++ " ---\n" ++ raw })) ∧
    (db.dump_on_error = false →
      ensure_db_file db st ts = (.error .jsonDecodeError, st)) ∧
    getF db st k = (.error .jsonDecodeError, st) ∧
    get_all_keysF st = (.error .jsonDecodeError, st) ∧
    get_all_modelsF db st = (.error .jsonDecodeError, st) := by
  refine ⟨fun h => ?_, fun h => ?_, ?_, ?_, ?_⟩
  · simp [ensure_db_file, hc, h]
  · simp [ensure_db_file, hc, h]
  · simp [getF, get_db_content, hc]
  · simp [get_all_keysF, get_db_content, hc]
  · simp [get_all_modelsF, get_db_content, hc]

/-- Witness for the amended C2 theorem at a concrete corrupt state. -/
theorem c2_recovery_only_at_initialization_witness :
    (({ file := TableFile.corrupt "xx", dump := "d" } : FsState).file =
      TableFile.corrupt "xx") ∧
    ((listDB.dump_on_error = true →
      ensure_db_file listDB { file := TableFile.corrupt "xx", dump := "d" } "ts" =
        (.ok (), { file := .good [],
                   dump := "d" ++ "\n\n--- DUMP: " ++ "ts" ++ " ---\n" ++ "xx" })) ∧
    (listDB.dump_on_error = false →
      ensure_db_file listDB { file := TableFile.corrupt "xx", dump := "d" } "ts" =
        (.error .jsonDecodeError, { file := TableFile.corrupt "xx", dump := "d" })) ∧
    getF listDB { file := TableFile.corrupt "xx", dump := "d" } "k" =
      (.error .jsonDecodeError, { file := TableFile.corrupt "xx", dump := "d" }) ∧
    get_all_keysF { file := TableFile.corrupt "xx", dump := "d" } =
      (.error .jsonDecodeError, { file := TableFile.corrupt "xx", dump := "d" }) ∧
    get_all_modelsF listDB { file := TableFile.corrupt "xx", dump := "d" } =
      (.error .jsonDecodeError, { file := TableFile.corrupt "xx", dump := "d" })) :=
  ⟨rfl, c2_recovery_only_at_initialization listDB
    { file := TableFile.corrupt "xx", dump := "d" } "xx" "ts" "k" rfl⟩

/-! ## Claim C10 -/

/-- Claim C10: a caller-supplied value equal to the sentinel string
`"_NOTREQ"` is indistinguishable from an omitted optional value:
`prepare_value` replaces any value equal to the sentinel by the field's
configured default (or the type's zero value when none is configured),
and the dataclass constructor fills an omitted optional field with the
same sentinel.  Concretely, inserting `{name: "_NOTREQ"}` into a table
whose `name` is a required string stores and returns `""`, not the
inserted value. -/
theorem c10_sentinel_collision :
    (∀ c : Column, c.prepare_value (Val.str NOT_REQUIRED) =
        .ok (if c.default = Val.str UNDEFINED_DEFAULT_VALUE then tyZero c.type_
             else c.default)) ∧
    modelFromContent listDB [] =
      modelFromContent listDB [("items", Val.str NOT_REQUIRED)] ∧
    insert nameDB [] [("name", Val.str NOT_REQUIRED)] "" =
      .ok (some ("9524ce97fd22b1105801efcff9bb6d7aea6508c2",
        [("9524ce97fd22b1105801efcff9bb6d7aea6508c2", [("name", Val.str "")])])) ∧
    get nameDB [("9524ce97fd22b1105801efcff9bb6d7aea6508c2", [("name", Val.str "")])]
      "9524ce97fd22b1105801efcff9bb6d7aea6508c2" = .ok [("name", Val.str "")] ∧
    Val.str "" ≠ Val.str NOT_REQUIRED := by
  refine ⟨fun c => ?_, by rfl, by rfl, by rfl, by decide⟩
  simp [Column.prepare_value]

/-! ## Claim C7 -/

/-- Claim C7: for a key absent from the table, `get`, `update` (with the
flags not both set — both set returns before the lookup) and `delete`
all fail with `KeyNotFound` and write nothing; and deleting an existing
key then calling `get` on it also reports `KeyNotFound`. -/
theorem c7_notfound_behaviour
    (db : DB) (st : FsState) (t : Table) (k k2 : String)
    (changes : List (String × Val)) (ia ip : Bool) (d : Doc)
    (hfile : st.file = .good t) (hflags : (ia && ip) = false)
    (habs : dget t k = Option.none) (hpres : dget t k2 = some d) :
    getF db st k = (.error .keyNotFound, st) ∧
    updateF db st k changes ia ip = (.error .keyNotFound, st) ∧
    deleteF db st k = (.error .keyNotFound, st) ∧
    deleteF db st k2 = (.ok (), { st with file := .good (tdel t k2) }) ∧
    getF db { st with file := .good (tdel t k2) } k2 =
      (.error .keyNotFound, { st with file := .good (tdel t k2) }) := by
  refine ⟨?_, ?_, ?_, ?_, ?_⟩
  · simp [getF, get_db_content, hfile, get, habs]
  · simp [updateF, get_db_content, hfile, update, hflags, get, habs,
      bind, Except.bind, pure, Except.pure]
  · simp [deleteF, get_db_content, hfile, delete, habs]
  · simp [deleteF, get_db_content, hfile, delete, hpres]
  · simp [getF, get_db_content, get, dget_tdel_self]

/-- Witness for C7 on a one-row table: `"z"` is absent, `"k"` present. -/
theorem c7_notfound_behaviour_witness :
    (({ file := TableFile.good [("k", [("items", Val.list [])])], dump := "" } :
        FsState).file = TableFile.good [("k", [("items", Val.list [])])]) ∧
    ((false && false) = false) ∧
    dget [("k", [("items", Val.list [])])] "z" = Option.none ∧
    dget [("k", [("items", Val.list [])])] "k" = some [("items", Val.list [])] ∧
    getF listDB
        { file := TableFile.good [("k", [("items", Val.list [])])], dump := "" }
        "z" =
      (.error .keyNotFound,
       { file := TableFile.good [("k", [("items", Val.list [])])], dump := "" }) ∧
    deleteF listDB
        { file := TableFile.good [("k", [("items", Val.list [])])], dump := "" }
        "k" =
      (.ok (), { file := TableFile.good [], dump := "" }) := by
  have h := c7_notfound_behaviour listDB
    { file := TableFile.good [("k", [("items", Val.list [])])], dump := "" }
    [("k", [("items", Val.list [])])] "z" "k" [] false false
    [("items", Val.list [])] rfl rfl (by decide) (by decide)
  exact ⟨rfl, rfl, by decide, by decide, h.1, h.2.2.2.1⟩

/-! ## Claim C6 -/

theorem sha1Words_eq_five (msg : List Nat) :
    ∃ a b c d e, sha1Words msg = [a, b, c, d, e] :=
  ⟨_, _, _, _, _, rfl⟩

theorem sha1Hex_length (s : String) : (sha1Hex s).length = 40 := by
  obtain ⟨a, b, c, d, e, hw⟩ := sha1Words_eq_five (utf8Bytes s)
  unfold sha1Hex
  rw [hw]
  rfl

theorem hexDigit_mem_hex : ∀ n < 16,
    "0123456789abcdef".data.contains (hexDigit n) = true := by decide

theorem isHexStr_sha1Hex (s : String) : isHexStr (sha1Hex s) = true := by
  obtain ⟨a, b, c, d, e, hw⟩ := sha1Words_eq_five (utf8Bytes s)
  unfold isHexStr sha1Hex
  rw [hw]
  rw [List.all_eq_true]
  intro x hx
  simp only [List.map_cons, List.map_nil, List.flatten, List.append_nil,
    List.mem_append, hex8, List.mem_cons, List.not_mem_nil, or_false] at hx
  have hmem : ∀ m : Nat, "0123456789abcdef".data.contains (hexDigit (m % 16)) = true :=
    fun m => hexDigit_mem_hex (m % 16) (Nat.mod_lt _ (by omega))
  rcases hx with h|h|h|h|h <;> rcases h with h|h|h|h|h|h|h|h <;>
    · rw [h]
      exact hmem _

theorem pyRemovePrefix_id (s : String) (c : Char)
    (h : pyStartsWith s c = false) : pyRemovePrefix s c = s := by
  obtain ⟨l⟩ := s
  cases l with
  | nil => rfl
  | cons a rest =>
    have h2 : ¬ (a = c) := by simpa [pyStartsWith] using h
    simp [pyRemovePrefix, h2]

theorem key_seed_foldlM (model : Doc) :
    ∀ (attrs : List String) (acc : String),
      allStrFields model attrs = true →
      attrs.foldlM
        (fun acc attr =>
          match dget model attr with
          | some (Val.str s) => Except.ok (acc ++ s)
          | some _ => Except.error DBErr.typeError
          | Option.none => Except.error DBErr.attributeError)
        acc =
      Except.ok (acc ++ strConcat (attrs.map (fieldStr model))) := by
  intro attrs
  induction attrs with
  | nil =>
    intro acc _
    simp [strConcat, List.foldlM, pure, Except.pure]
  | cons a rest ih =>
    intro acc hall
    simp only [allStrFields, List.all_cons, Bool.and_eq_true] at hall
    cases hd : dget model a with
    | none => rw [hd] at hall; simp at hall
    | some w =>
      cases w with
      | str s =>
        have hall2 : allStrFields model rest = true := hall.2
        simp only [List.foldlM_cons, hd, bind, Except.bind]
        rw [ih (acc ++ s) hall2]
        simp only [List.map_cons, strConcat, fieldStr, hd]
        rw [String.append_assoc]
      | int n => rw [hd] at hall; simp at hall
      | bool b => rw [hd] at hall; simp at hall
      | list l => rw [hd] at hall; simp at hall
      | none => rw [hd] at hall; simp at hall

/-- Claim C6: for a single- or multi-attribute hash key rule (not the
random rule, no passthrough prefix) whose named fields all hold strings,
the derived key is the SHA-1 hex digest of the concatenation of the
named field values in declared order with no separator; the digest is 40
lowercase hex characters; and derivation is deterministic — a model
agreeing on the named fields yields the same key. -/
theorem c6_hash_key_derivation
    (key_provider : String) (model model2 : Doc) (uuid uuid2 : String)
    (hu : key_provider ≠ KEY_AS_UUID4)
    (hb : pyStartsWith key_provider '!' = false)
    (hs : allStrFields model (ruleNamedFields key_provider) = true)
    (hagree : ∀ a ∈ ruleNamedFields key_provider, dget model2 a = dget model a) :
    parse_key_provider key_provider model uuid =
      .ok (sha1Hex (ruleKeySeed model key_provider)) ∧
    (sha1Hex (ruleKeySeed model key_provider)).length = 40 ∧
    isHexStr (sha1Hex (ruleKeySeed model key_provider)) = true ∧
    parse_key_provider key_provider model2 uuid2 =
      parse_key_provider key_provider model uuid := by
  have hremove := pyRemovePrefix_id key_provider '!' hb
  have hs2 : allStrFields model2 (ruleNamedFields key_provider) = true := by
    simp only [allStrFields, List.all_eq_true] at hs ⊢
    intro a ha
    rw [hagree a ha]
    exact hs a ha
  have main : ∀ (m : Doc) (u : String),
      allStrFields m (ruleNamedFields key_provider) = true →
      parse_key_provider key_provider m u =
        .ok (sha1Hex (ruleKeySeed m key_provider)) := by
    intro m u hm
    unfold parse_key_provider
    rw [if_neg hu]
    simp only [hb, hremove, Bool.false_eq_true, if_false]
    by_cases hplus : key_provider.data.contains '+'
    · rw [ruleNamedFields, if_pos hplus] at hm
      simp only [hplus, if_true, bind, Except.bind, pure, Except.pure,
        key_seed_foldlM m (pySplit key_provider '+') "" hm]
      rw [ruleKeySeed, ruleNamedFields, if_pos hplus]
      rfl
    · rw [ruleNamedFields, if_neg hplus] at hm
      simp only [allStrFields, List.all_cons, List.all_nil,
        Bool.and_true] at hm
      cases hd : dget m key_provider with
      | none => rw [hd] at hm; simp at hm
      | some w =>
        cases w with
        | str s =>
          simp only [hplus, if_false, hd, bind, Except.bind, pure,
            Except.pure, Bool.false_eq_true]
          rw [ruleKeySeed, ruleNamedFields, if_neg hplus]
          simp only [List.map_cons, List.map_nil, strConcat, fieldStr, hd]
          rw [String.append_empty]
        | int n => rw [hd] at hm; simp at hm
        | bool b => rw [hd] at hm; simp at hm
        | list l => rw [hd] at hm; simp at hm
        | none => rw [hd] at hm; simp at hm
  have hseed : ruleKeySeed model2 key_provider = ruleKeySeed model key_provider := by
    rw [ruleKeySeed, ruleKeySeed]
    congr 1
    apply List.map_congr_left
    intro a ha
    rw [fieldStr, fieldStr, hagree a ha]
  refine ⟨main model uuid hs, sha1Hex_length _, isHexStr_sha1Hex _, ?_⟩
  rw [main model uuid hs, main model2 uuid2 hs2, hseed]

/-- Witness for C6 at the `FriendRequestsModel` key rule
`"author+target"`. -/
theorem c6_hash_key_derivation_witness :
    ("author+target" ≠ KEY_AS_UUID4) ∧
    pyStartsWith "author+target" '!' = false ∧
    allStrFields [("author", Val.str "alice"), ("target", Val.str "bob")]
      (ruleNamedFields "author+target") = true ∧
    (∀ a ∈ ruleNamedFields "author+target",
      dget [("author", Val.str "alice"), ("target", Val.str "bob")] a =
      dget [("author", Val.str "alice"), ("target", Val.str "bob")] a) ∧
    parse_key_provider "author+target"
      [("author", Val.str "alice"), ("target", Val.str "bob")] "u" =
      .ok (sha1Hex (ruleKeySeed
        [("author", Val.str "alice"), ("target", Val.str "bob")]
        "author+target")) ∧
    ruleKeySeed [("author", Val.str "alice"), ("target", Val.str "bob")]
      "author+target" = "alicebob" := by
  have h := c6_hash_key_derivation "author+target"
    [("author", Val.str "alice"), ("target", Val.str "bob")]
    [("author", Val.str "alice"), ("target", Val.str "bob")] "u" "u2"
    (by decide) (by decide) (by decide) (fun a _ => rfl)
  exact ⟨by decide, by decide, by decide, fun a _ => rfl, h.1, by decide⟩

/-! ## Claim C8 -/

theorem saveModelContent_names (db : DB) :
    ∀ (m c : Doc), saveModelContent db m = .ok (some c) →
      c.map (fun p => p.1) = m.map (fun p => p.1) := by
  intro m
  induction m with
  | nil =>
    intro c h
    simp only [saveModelContent] at h
    cases h
    rfl
  | cons p rest ih =>
    intro c h
    obtain ⟨fname, v⟩ := p
    simp only [saveModelContent] at h
    cases hfind : db.columns.find? (fun cc => cc.name = fname) with
    | none => rw [hfind] at h; cases h
    | some column =>
      rw [hfind] at h
      simp only [bind, Except.bind] at h
      cases hsc : saveColumnValue db column v with
      | error e => rw [hsc] at h; cases h
      | ok r =>
        rw [hsc] at h
        cases r with
        | none => cases h
        | some v2 =>
          cases hrest : saveModelContent db rest with
          | error e => rw [hrest] at h; cases h
          | ok r2 =>
            rw [hrest] at h
            cases r2 with
            | none => cases h
            | some content =>
              cases h
              simp only [List.map_cons]
              rw [ih content hrest]

theorem modelFields_names (content : Doc) :
    ∀ (cols : List Column) (m : Doc), modelFields content cols = .ok m →
      m.map (fun p => p.1) = cols.map (fun c => c.name) := by
  intro cols
  induction cols with
  | nil =>
    intro m h
    cases h
    rfl
  | cons c cs ih =>
    intro m h
    simp only [modelFields, bind, Except.bind] at h
    cases hd : dget content c.name with
    | some v =>
      rw [hd] at h
      cases hrest : modelFields content cs with
      | error e => rw [hrest] at h; cases h
      | ok rest =>
        rw [hrest] at h
        cases h
        simp only [List.map_cons]
        rw [ih rest hrest]
    | none =>
      rw [hd] at h
      by_cases hdef : c.default = Val.str UNDEFINED_DEFAULT_VALUE
      · rw [if_pos hdef] at h
        cases h
      · rw [if_neg hdef] at h
        cases hrest : modelFields content cs with
        | error e => rw [hrest] at h; cases h
        | ok rest =>
          rw [hrest] at h
          cases h
          simp only [List.map_cons]
          rw [ih rest hrest]

theorem modelFromContent_names (db : DB) (content m : Doc)
    (h : modelFromContent db content = .ok m) :
    m.map (fun p => p.1) = db.columns.map (fun c => c.name) := by
  rw [modelFromContent] at h
  by_cases hall : content.all (fun p => db.columns.any (fun c => c.name = p.1))
  · rw [if_pos hall] at h
    exact modelFields_names content db.columns m h
  · rw [if_neg hall] at h
    cases h

theorem get_names (db : DB) (t : Table) (key : String) (m : Doc)
    (h : get db t key = .ok m) :
    m.map (fun p => p.1) = db.columns.map (fun c => c.name) := by
  rw [get] at h
  cases hd : dget t key with
  | none => rw [hd] at h; cases h
  | some content =>
    rw [hd] at h
    exact modelFromContent_names db content m h

theorem updateLoop_names (ia ip : Bool) :
    ∀ (changes : List (String × Val)) (m m2 : Doc),
      updateLoop ia ip m changes = some m2 →
      m2.map (fun p => p.1) = m.map (fun p => p.1) := by
  intro changes
  induction changes with
  | nil =>
    intro m m2 h
    cases h
    rfl
  | cons ch rest ih =>
    intro m m2 h
    obtain ⟨key_name, value⟩ := ch
    simp only [updateLoop] at h
    by_cases hf : hasField m key_name
    · rw [if_neg (by simpa using hf)] at h
      by_cases hpop : (ip && isIterable value) = true
      · rw [if_pos hpop] at h
        cases hd : dget m key_name with
        | none =>
          simp only [hd] at h
          rw [ih _ _ h, names_dset]
        | some w =>
          simp only [hd] at h
          cases w with
          | list current_data =>
            simp only [] at h
            by_cases hin : (current_data.any (fun x => Val.pyEq x value)) = true
            · rw [if_pos hin] at h
              rw [ih _ _ h, names_dset]
            · rw [if_neg hin] at h
              cases h
          | str a => rw [ih _ _ h, names_dset]
          | int a => rw [ih _ _ h, names_dset]
          | bool a => rw [ih _ _ h, names_dset]
          | none => rw [ih _ _ h, names_dset]
      · rw [if_neg hpop] at h
        rw [ih _ _ h, names_dset]
    · rw [if_pos (by simpa using hf)] at h
      exact ih _ _ h

theorem tset_shaped (db : DB) (t : Table) (k : String) (d : Doc)
    (hsh : SchemaShaped db t)
    (hd : d.map (fun p => p.1) = db.columns.map (fun c => c.name)) :
    SchemaShaped db (tset t k d) := by
  intro p hp
  rw [tset] at hp
  by_cases hany : t.any (fun q => q.1 = k)
  · rw [if_pos hany] at hp
    rw [dset] at hp
    obtain ⟨q, hq, hqe⟩ := List.mem_map.mp hp
    by_cases hqk : q.1 = k
    · rw [if_pos hqk] at hqe
      rw [← hqe]
      exact hd
    · rw [if_neg hqk] at hqe
      rw [← hqe]
      exact hsh q hq
  · rw [if_neg hany] at hp
    rcases List.mem_append.mp hp with hin | hin
    · exact hsh p hin
    · rcases List.mem_cons.mp hin with he | he
      · rw [he]
        exact hd
      · simp at he

theorem saveModel_shaped (db : DB) (t : Table) (model : Doc)
    (key? : Option String) (uuid : String) (k : String) (t2 : Table)
    (hsh : SchemaShaped db t)
    (hnames : model.map (fun p => p.1) = db.columns.map (fun c => c.name))
    (h : saveModel db t model key? uuid = .ok (some (k, t2))) :
    SchemaShaped db t2 := by
  rw [saveModel.eq_def] at h
  simp only [bind, Except.bind] at h
  cases key? with
  | some kk =>
    simp only [] at h
    cases hc : saveModelContent db model with
    | error e => simp only [hc] at h; exact Except.noConfusion h
    | ok r =>
      simp only [hc] at h
      cases r with
      | none => simp at h
      | some content =>
        simp only [Except.ok.injEq, Option.some.injEq, Prod.mk.injEq] at h
        obtain ⟨hkk, ht2⟩ := h
        rw [← ht2]
        exact tset_shaped db t kk content hsh
          (by rw [saveModelContent_names db model content hc]; exact hnames)
  | none =>
    cases hp : parse_key_provider db.key_provider model uuid with
    | error e => simp only [hp] at h; exact Except.noConfusion h
    | ok db_key =>
      simp only [hp] at h
      cases hc : saveModelContent db model with
      | error e => simp only [hc] at h; exact Except.noConfusion h
      | ok r =>
        simp only [hc] at h
        cases r with
        | none => simp at h
        | some content =>
          simp only [Except.ok.injEq, Option.some.injEq, Prod.mk.injEq] at h
          obtain ⟨hkk, ht2⟩ := h
          rw [← ht2]
          exact tset_shaped db t db_key content hsh
            (by rw [saveModelContent_names db model content hc]; exact hnames)

/-- Claim C8: starting from the empty table, every successfully
completed `insert` (of a model built by the dataclass constructor),
`update`, or `delete` leaves every stored document with exactly the
schema's declared field names, in declaration order. -/
theorem c8_schema_shape_invariant (db : DB) :
    SchemaShaped db ([] : Table) ∧
    (∀ t kwargs uuid model k t2, SchemaShaped db t →
      modelFromContent db kwargs = .ok model →
      insert db t model uuid = .ok (some (k, t2)) → SchemaShaped db t2) ∧
    (∀ t key changes ia ip t2, SchemaShaped db t →
      update db t key changes ia ip = .ok t2 → SchemaShaped db t2) ∧
    (∀ t key t2, SchemaShaped db t →
      delete db t key = .ok t2 → SchemaShaped db t2) := by
  refine ⟨fun p hp => absurd hp (List.not_mem_nil p), ?_, ?_, ?_⟩
  · intro t kwargs uuid model k t2 hsh hmodel hins
    exact saveModel_shaped db t model Option.none uuid k t2 hsh
      (modelFromContent_names db kwargs model hmodel) hins
  · intro t key changes ia ip t2 hsh hupd
    rw [update] at hupd
    by_cases hflags : (ia && ip) = true
    · simp only [hflags, if_true, pure, Except.pure] at hupd
      cases hupd
      exact hsh
    · simp only [hflags, Bool.false_eq_true, if_false, bind, Except.bind,
        pure, Except.pure] at hupd
      cases hget : get db t key with
      | error e => simp only [hget] at hupd; exact Except.noConfusion hupd
      | ok model_object =>
        simp only [hget] at hupd
        cases hloop : updateLoop ia ip model_object changes with
        | none =>
          simp only [hloop] at hupd
          cases hupd
          exact hsh
        | some m2 =>
          simp only [hloop] at hupd
          cases hsave : saveModel db t m2 (some key) "" with
          | error e => simp only [hsave] at hupd; exact Except.noConfusion hupd
          | ok r =>
            simp only [hsave] at hupd
            cases r with
            | none =>
              cases hupd
              exact hsh
            | some kt =>
              obtain ⟨k2, t3⟩ := kt
              cases hupd
              exact saveModel_shaped db t m2 (some key) "" k2 t2 hsh
                (by rw [updateLoop_names ia ip changes model_object m2 hloop]
                    exact get_names db t key model_object hget) hsave
  · intro t key t2 hsh hdel
    rw [delete] at hdel
    by_cases habs : (dget t key).isNone
    · rw [if_pos habs] at hdel
      cases hdel
    · rw [if_neg habs] at hdel
      cases hdel
      intro p hp
      exact hsh p (mem_of_mem_tdel t key p hp)

/-- Witness for C8: a concrete insert, update and delete chain on the
one-column string table. -/
theorem c8_schema_shape_invariant_witness :
    SchemaShaped nameDB ([] : Table) ∧
    modelFromContent nameDB [("name", Val.str "x")] = .ok [("name", Val.str "x")] ∧
    insert nameDB [] [("name", Val.str "x")] "" =
      .ok (some (sha1Hex "x", [(sha1Hex "x", [("name", Val.str "x")])])) ∧
    SchemaShaped nameDB [(sha1Hex "x", [("name", Val.str "x")])] ∧
    update nameDB [(sha1Hex "x", [("name", Val.str "x")])] (sha1Hex "x")
      [("name", Val.str "y")] false false =
      .ok [(sha1Hex "x", [("name", Val.str "y")])] ∧
    SchemaShaped nameDB [(sha1Hex "x", [("name", Val.str "y")])] ∧
    delete nameDB [(sha1Hex "x", [("name", Val.str "y")])] (sha1Hex "x") =
      .ok [] ∧
    SchemaShaped nameDB ([] : Table) := by
  have h := c8_schema_shape_invariant nameDB
  have hins : insert nameDB [] [("name", Val.str "x")] "" =
      .ok (some (sha1Hex "x", [(sha1Hex "x", [("name", Val.str "x")])])) := by rfl
  have hupd : update nameDB [(sha1Hex "x", [("name", Val.str "x")])] (sha1Hex "x")
      [("name", Val.str "y")] false false =
      .ok [(sha1Hex "x", [("name", Val.str "y")])] := by rfl
  have hdel : delete nameDB [(sha1Hex "x", [("name", Val.str "y")])] (sha1Hex "x") =
      .ok [] := by rfl
  have h1 : SchemaShaped nameDB [(sha1Hex "x", [("name", Val.str "x")])] :=
    h.2.1 [] [("name", Val.str "x")] "" [("name", Val.str "x")] (sha1Hex "x")
      [(sha1Hex "x", [("name", Val.str "x")])] h.1 (by rfl) hins
  have h2 : SchemaShaped nameDB [(sha1Hex "x", [("name", Val.str "y")])] :=
    h.2.2.1 [(sha1Hex "x", [("name", Val.str "x")])] (sha1Hex "x")
      [("name", Val.str "y")] false false
      [(sha1Hex "x", [("name", Val.str "y")])] h1 hupd
  have h3 : SchemaShaped nameDB ([] : Table) :=
    h.2.2.2 [(sha1Hex "x", [("name", Val.str "y")])] (sha1Hex "x") [] h2 hdel
  exact ⟨h.1, by rfl, hins, h1, hupd, h2, hdel, h3⟩

/-! ## Claim C3 -/

theorem updateLoop_pop_not_found :
    ∀ (changes : List (String × Val)) (m : Doc),
      (changes.map (fun p => p.1)).Nodup →
      (∃ p ∈ changes, hasField m p.1 = true ∧ isIterable p.2 = true ∧
        ∃ l, dget m p.1 = some (Val.list l) ∧
          (l.any (fun x => Val.pyEq x p.2)) = false) →
      updateLoop false true m changes = Option.none := by
  intro changes
  induction changes with
  | nil =>
    intro m _ hex
    obtain ⟨p, hp, _⟩ := hex
    simp at hp
  | cons ch rest ih =>
    intro m hnodup hex
    obtain ⟨g, w⟩ := ch
    simp only [List.map_cons, List.nodup_cons] at hnodup
    obtain ⟨p, hp, hfp, hitp, l, hlp, hnin⟩ := hex
    rcases List.mem_cons.mp hp with he | hpr
    · -- the witness is the head: the loop aborts right here
      subst he
      simp only [updateLoop, hfp, Bool.not_true, Bool.false_eq_true, if_false,
        Bool.true_and, hitp, if_true, hlp]
      simp [hnin]
    · -- the witness sits in the tail; the head only rewrites its own field
      have hne : p.1 ≠ g := by
        intro he
        exact hnodup.1 (he ▸ List.mem_map.mpr ⟨p, hpr, rfl⟩)
      have htail : ∀ m' : Doc,
          hasField m' p.1 = hasField m p.1 →
          dget m' p.1 = dget m p.1 →
          updateLoop false true m' rest = Option.none := by
        intro m' hhf hdg
        exact ih m' hnodup.2
          ⟨p, hpr, by rw [hhf]; exact hfp, hitp, l, by rw [hdg]; exact hlp, hnin⟩
      by_cases hfg : hasField m g
      · simp only [updateLoop, hfg, Bool.not_true, Bool.false_eq_true,
          if_false, Bool.true_and, Bool.false_and]
        by_cases hitg : isIterable w
        · simp only [hitg, if_true]
          cases hdg : dget m g with
          | none =>
            exact htail _ (by rw [hasField_dset]) (dget_dset_ne m g p.1 _ hne)
          | some u =>
            cases u with
            | list cur =>
              simp only []
              by_cases hin : (cur.any (fun x => Val.pyEq x w)) = true
              · rw [if_pos hin]
                exact htail _ (by rw [hasField_dset])
                  (dget_dset_ne m g p.1 _ hne)
              · rw [if_neg hin]
                simp
            | str a =>
              exact htail _ (by rw [hasField_dset]) (dget_dset_ne m g p.1 _ hne)
            | int a =>
              exact htail _ (by rw [hasField_dset]) (dget_dset_ne m g p.1 _ hne)
            | bool a =>
              exact htail _ (by rw [hasField_dset]) (dget_dset_ne m g p.1 _ hne)
            | none =>
              exact htail _ (by rw [hasField_dset]) (dget_dset_ne m g p.1 _ hne)
        · simp only [hitg, Bool.false_eq_true, if_false]
          exact htail _ (by rw [hasField_dset]) (dget_dset_ne m g p.1 _ hne)
      · simp only [updateLoop, hfg, Bool.not_false, if_true]
        exact htail m rfl rfl

/- Python `==` at the pop site: `[True] in [[1]]` holds because
`True == 1`, so popping `[True]` from a stored `[[1]]` removes the
element and persists the emptied list. -/
example :
    update listDB [("k", [("items", Val.list [Val.list [Val.int 1]])])] "k"
      [("items", Val.list [Val.bool true])] false true =
      .ok [("k", [("items", Val.list [])])] := by rfl

example : Val.pyEq (Val.list [Val.int 1]) (Val.list [Val.bool true]) = true := by rfl

/-- Claim C3, counterexample: `update(key, {"items": None}, iter_pop=true)`
with `None` absent from the stored list `["a"]` does *not* reject the
update — `None` is not `Iterable`, so the pop branch is skipped, the
field is replaced outright, and the save pipeline persists the zero
value `[]` for the optional list column.  The stored document changes. -/
theorem c3_counterexample_pop_non_iterable_persists :
    update listDB [("k", [("items", Val.list [Val.str "a"])])] "k"
      [("items", Val.none)] false true =
      .ok [("k", [("items", Val.list [])])] ∧
    ([Val.str "a"].any (fun x => Val.pyEq x Val.none)) = false ∧
    Val.list [] ≠ Val.list [Val.str "a"] := by
  refine ⟨by rfl, by decide, by decide⟩

/-- Claim C3, amended: (a) calling `update` with both `iter_append` and
`iter_pop` leaves the table unchanged (nothing is persisted), and (b)
calling `update` with `iter_pop` and a changes mapping (with distinct
field names) in which some *iterable* value is absent from the current
list value of its schema field rejects the entire update: the table is
returned unchanged, even when other fields are named.  (For non-iterable
values the pop branch is skipped entirely — the counterexample.) -/
theorem c3_update_rejections
    (db : DB) (t : Table) (key : String) (changes : List (String × Val))
    (m : Doc) (f : String) (v : Val) (l : List Val)
    (hget : get db t key = .ok m)
    (hnodup : (changes.map (fun p => p.1)).Nodup)
    (hmem : (f, v) ∈ changes)
    (hf : hasField m f = true)
    (hit : isIterable v = true)
    (hcur : dget m f = some (Val.list l))
    (habs : (l.any (fun x => Val.pyEq x v)) = false) :
    (∀ (db2 : DB) (t2 : Table) (key2 : String)
      (changes2 : List (String × Val)),
      update db2 t2 key2 changes2 true true = .ok t2) ∧
    update db t key changes false true = .ok t := by
  constructor
  · intro db2 t2 key2 changes2
    simp [update, pure, Except.pure]
  · simp only [update, Bool.false_and, Bool.false_eq_true, if_false,
      bind, Except.bind, hget]
    rw [updateLoop_pop_not_found changes m hnodup
      ⟨(f, v), hmem, hf, hit, l, hcur, habs⟩]
    rfl

/-- Witness for the amended C3 at a concrete table: popping the missing
string `"x"` from `["a"]` leaves the table unchanged. -/
theorem c3_update_rejections_witness :
    get listDB [("k", [("items", Val.list [Val.str "a"])])] "k" =
      .ok [("items", Val.list [Val.str "a"])] ∧
    ([("items", Val.str "x")].map (fun p => p.1)).Nodup ∧
    ("items", Val.str "x") ∈ [("items", Val.str "x")] ∧
    hasField [("items", Val.list [Val.str "a"])] "items" = true ∧
    isIterable (Val.str "x") = true ∧
    dget [("items", Val.list [Val.str "a"])] "items" =
      some (Val.list [Val.str "a"]) ∧
    ([Val.str "a"].any (fun x => Val.pyEq x (Val.str "x"))) = false ∧
    update listDB [("k", [("items", Val.list [Val.str "a"])])] "k"
      [("items", Val.str "x")] false true =
      .ok [("k", [("items", Val.list [Val.str "a"])])] := by
  have h := c3_update_rejections listDB
    [("k", [("items", Val.list [Val.str "a"])])] "k"
    [("items", Val.str "x")] [("items", Val.list [Val.str "a"])]
    "items" (Val.str "x") [Val.str "a"]
    (by rfl) (by decide) (by decide) (by decide) (by decide) (by decide)
    (by decide)
  exact ⟨by rfl, by decide, by decide, by decide, by decide, by decide,
    by decide, h.2⟩

/-! ## Claim C4 -/

theorem updateLoop_append_all :
    ∀ (changes : List (String × Val)) (m : Doc),
      (changes.map (fun p => p.1)).Nodup →
      (∀ p ∈ changes, hasField m p.1 = true ∧ isIterable p.2 = true ∧
        ∃ l, dget m p.1 = some (Val.list l)) →
      ∃ m2, updateLoop true false m changes = some m2 ∧
        m2.map (fun q => q.1) = m.map (fun q => q.1) ∧
        (∀ f v l, (f, v) ∈ changes → dget m f = some (Val.list l) →
          dget m2 f = some (Val.list (l ++ [v]))) ∧
        (∀ g, (∀ w, (g, w) ∉ changes) → dget m2 g = dget m g) := by
  intro changes
  induction changes with
  | nil =>
    intro m _ _
    exact ⟨m, rfl, rfl, by intro f v l h; simp at h, fun g _ => rfl⟩
  | cons ch rest ih =>
    intro m hnodup hconds
    obtain ⟨g, w⟩ := ch
    simp only [List.map_cons, List.nodup_cons] at hnodup
    obtain ⟨hfg, hitg, l0, hl0⟩ := hconds (g, w) (List.mem_cons_self _ _)
    have hgrest : ∀ w', (g, w') ∉ rest := by
      intro w' hmem
      exact hnodup.1 (List.mem_map.mpr ⟨(g, w'), hmem, rfl⟩)
    have hstep : updateLoop true false m ((g, w) :: rest) =
        updateLoop true false (dset m g (Val.list (l0 ++ [w]))) rest := by
      simp only [updateLoop, hfg, Bool.not_true, Bool.false_eq_true, if_false,
        Bool.true_and, Bool.false_and, hitg, if_true, hl0]
      simp
    have hconds2 : ∀ p ∈ rest,
        hasField (dset m g (Val.list (l0 ++ [w]))) p.1 = true ∧
        isIterable p.2 = true ∧
        ∃ l, dget (dset m g (Val.list (l0 ++ [w]))) p.1 = some (Val.list l) := by
      intro p hp
      have hne : p.1 ≠ g := by
        intro he
        exact hnodup.1 (he ▸ List.mem_map.mpr ⟨p, hp, rfl⟩)
      obtain ⟨h1, h2, l, h3⟩ := hconds p (List.mem_cons_of_mem _ hp)
      exact ⟨by rw [hasField_dset]; exact h1, h2,
        l, by rw [dget_dset_ne m g p.1 _ hne]; exact h3⟩
    obtain ⟨m2, hloop2, hnames2, hnamed2, hun2⟩ :=
      ih (dset m g (Val.list (l0 ++ [w]))) hnodup.2 hconds2
    refine ⟨m2, by rw [hstep]; exact hloop2, by rw [hnames2, names_dset], ?_, ?_⟩
    · intro f v l hmemc hcurm
      rcases List.mem_cons.mp hmemc with he | hrest
      · injection he with he1 he2
        subst he1
        subst he2
        have hll : l = l0 := by
          rw [hl0] at hcurm
          exact (by simpa using hcurm : l0 = l).symm
        subst hll
        rw [hun2 f hgrest, dget_dset_self m f _ hfg]
      · have hne : f ≠ g := by
          intro he
          exact hnodup.1 (he ▸ List.mem_map.mpr ⟨(f, v), hrest, rfl⟩)
        exact hnamed2 f v l hrest
          (by rw [dget_dset_ne m g f _ hne]; exact hcurm)
    · intro g' hg'
      have hne : g' ≠ g := by
        intro he
        exact hg' w (he ▸ List.mem_cons_self _ _)
      rw [hun2 g' (fun w' hmem => hg' w' (List.mem_cons_of_mem _ hmem)),
        dget_dset_ne m g g' _ hne]

theorem saveColumnValue_list_stable (db : DB) (c : Column)
    (hl : c.type_ = Ty.list) (l : List Val) :
    saveColumnValue db c (Val.list l) = .ok (some (Val.list l)) := by
  have hprep : c.prepare_value (Val.list l) = .ok (Val.list l) := by
    rw [Column.prepare_value]
    rw [if_neg (by simp), if_neg (by simp)]
    rw [if_neg (by simp [isinst, hl])]
  simp only [saveColumnValue, hprep, bind, Except.bind, Column.validate,
    isinst, hl, if_true, pure, Except.pure]

theorem saveModelContent_stable (db : DB) :
    ∀ m : Doc,
      (∀ p ∈ m, ∃ c, db.columns.find? (fun cc => cc.name = p.1) = some c ∧
        saveColumnValue db c p.2 = .ok (some p.2)) →
      saveModelContent db m = .ok (some m) := by
  intro m
  induction m with
  | nil => intro _; rfl
  | cons p rest ih =>
    intro hst
    obtain ⟨fname, v⟩ := p
    obtain ⟨c, hc, hsv⟩ := hst (fname, v) (List.mem_cons_self _ _)
    simp only [saveModelContent, hc, hsv, bind, Except.bind,
      ih (fun q hq => hst q (List.mem_cons_of_mem _ hq))]

/-- Claim C4, counterexample: `update(key, {"items": None},
iter_append=true)` on a stored list `["a"]` does *not* append — `None`
is not `Iterable`, so the append branch is skipped, the field is
replaced by `None`, and the save pipeline persists the zero value `[]`
for the optional list column, losing the prior items. -/
theorem c4_counterexample_append_non_iterable :
    update listDB [("k", [("items", Val.list [Val.str "a"])])] "k"
      [("items", Val.none)] true false =
      .ok [("k", [("items", Val.list [])])] ∧
    Val.list [] ≠ Val.list ([Val.str "a"] ++ [Val.none]) ∧
    Val.list [] ≠ Val.list [Val.str "a"] := by
  refine ⟨by rfl, by decide, by decide⟩

/-- Claim C4, amended: for `iter_append` updates whose changes mapping
(with distinct field names) gives each named schema field an *iterable*
value, where each named field is a declared list column currently
holding a list, the update persists, for every named field, the result
of appending the given value to a copy of the current list; every field
not named in changes keeps its value (given that its stored value
survives the save pipeline unchanged, as every value the pipeline itself
has written does), and every other key of the table is untouched. -/
theorem c4_iter_append
    (db : DB) (t : Table) (key : String) (changes : List (String × Val))
    (m : Doc)
    (hget : get db t key = .ok m)
    (hnodupC : (changes.map (fun p => p.1)).Nodup)
    (hnodupM : (m.map (fun p => p.1)).Nodup)
    (hnamed : ∀ p ∈ changes, hasField m p.1 = true ∧ isIterable p.2 = true ∧
      (∃ l, dget m p.1 = some (Val.list l)) ∧
      ∃ c, db.columns.find? (fun cc => cc.name = p.1) = some c ∧
        c.type_ = Ty.list)
    (hstable : ∀ p ∈ m, (∀ w, (p.1, w) ∉ changes) →
      ∃ c, db.columns.find? (fun cc => cc.name = p.1) = some c ∧
        saveColumnValue db c p.2 = .ok (some p.2)) :
    ∃ m2, update db t key changes true false = .ok (tset t key m2) ∧
      (∀ f v l, (f, v) ∈ changes → dget m f = some (Val.list l) →
        dget m2 f = some (Val.list (l ++ [v]))) ∧
      (∀ g, (∀ w, (g, w) ∉ changes) → dget m2 g = dget m g) ∧
      (∀ j, j ≠ key → dget (tset t key m2) j = dget t j) := by
  obtain ⟨m2, hloop, hnames2, hnamed2, hun2⟩ :=
    updateLoop_append_all changes m hnodupC
      (fun p hp => ⟨(hnamed p hp).1, (hnamed p hp).2.1, (hnamed p hp).2.2.1⟩)
  have hnodupM2 : (m2.map (fun p => p.1)).Nodup := by
    rw [hnames2]; exact hnodupM
  have hstable2 : ∀ p ∈ m2,
      ∃ c, db.columns.find? (fun cc => cc.name = p.1) = some c ∧
        saveColumnValue db c p.2 = .ok (some p.2) := by
    intro p hp
    have hdg2 : dget m2 p.1 = some p.2 :=
      dget_eq_some_of_mem m2 p.1 p.2 hnodupM2 (by cases p; exact hp)
    by_cases hch : ∃ w, (p.1, w) ∈ changes
    · obtain ⟨w, hw⟩ := hch
      obtain ⟨_, _, ⟨l, hl⟩, c, hc, hct⟩ := hnamed (p.1, w) hw
      have hv : p.2 = Val.list (l ++ [w]) := by
        have h2 := hnamed2 p.1 w l hw hl
        rw [hdg2] at h2
        simpa using h2
      exact ⟨c, hc, by rw [hv]; exact saveColumnValue_list_stable db c hct _⟩
    · push_neg at hch
      have hdg : dget m p.1 = some p.2 := by
        rw [← hun2 p.1 hch]
        exact hdg2
      exact hstable (p.1, p.2) (mem_of_dget_eq_some m p.1 p.2 hdg)
        (by cases p; exact hch)
  have hsave : saveModel db t m2 (some key) "" =
      .ok (some (key, tset t key m2)) := by
    rw [saveModel.eq_def]
    simp only [bind, Except.bind, saveModelContent_stable db m2 hstable2]
  refine ⟨m2, ?_, hnamed2, hun2, fun j hj => dget_tset_ne t key j m2 hj⟩
  simp only [update, Bool.and_false, Bool.false_eq_true, if_false,
    bind, Except.bind, pure, Except.pure, hget, hloop, hsave]

/-- Witness for the amended C4: appending `"x"` to the stored list
`["a"]` of the optional list column. -/
theorem c4_iter_append_witness :
    get listDB [("k", [("items", Val.list [Val.str "a"])])] "k" =
      .ok [("items", Val.list [Val.str "a"])] ∧
    ([("items", Val.str "x")].map (fun p => p.1)).Nodup ∧
    ([("items", Val.list [Val.str "a"])].map (fun p => p.1)).Nodup ∧
    (∃ m2, update listDB [("k", [("items", Val.list [Val.str "a"])])] "k"
        [("items", Val.str "x")] true false =
        .ok (tset [("k", [("items", Val.list [Val.str "a"])])] "k" m2) ∧
      (∀ f v l, (f, v) ∈ [("items", Val.str "x")] →
        dget [("items", Val.list [Val.str "a"])] f = some (Val.list l) →
        dget m2 f = some (Val.list (l ++ [v]))) ∧
      (∀ g, (∀ w, (g, w) ∉ [("items", Val.str "x")]) →
        dget m2 g = dget [("items", Val.list [Val.str "a"])] g) ∧
      (∀ j, j ≠ "k" →
        dget (tset [("k", [("items", Val.list [Val.str "a"])])] "k" m2) j =
        dget [("k", [("items", Val.list [Val.str "a"])])] j)) ∧
    update listDB [("k", [("items", Val.list [Val.str "a"])])] "k"
      [("items", Val.str "x")] true false =
      .ok [("k", [("items", Val.list [Val.str "a", Val.str "x"])])] := by
  have hnamed : ∀ p ∈ [("items", Val.str "x")],
      hasField [("items", Val.list [Val.str "a"])] p.1 = true ∧
      isIterable p.2 = true ∧
      (∃ l, dget [("items", Val.list [Val.str "a"])] p.1 =
        some (Val.list l)) ∧
      ∃ c, listDB.columns.find? (fun cc => cc.name = p.1) = some c ∧
        c.type_ = Ty.list := by
    intro p hp
    rw [List.mem_singleton] at hp
    subst hp
    exact ⟨by decide, by decide, ⟨[Val.str "a"], by decide⟩,
      ⟨{ name := "items", type_ := Ty.list, default := Val.str NOT_REQUIRED },
       by decide, rfl⟩⟩
  have hstable : ∀ p ∈ [("items", Val.list [Val.str "a"])],
      (∀ w, (p.1, w) ∉ [("items", Val.str "x")]) →
      ∃ c, listDB.columns.find? (fun cc => cc.name = p.1) = some c ∧
        saveColumnValue listDB c p.2 = .ok (some p.2) := by
    intro p hp hnone
    rw [List.mem_singleton] at hp
    subst hp
    exact absurd (List.mem_singleton.mpr rfl) (hnone (Val.str "x"))
  have h := c4_iter_append listDB
    [("k", [("items", Val.list [Val.str "a"])])] "k"
    [("items", Val.str "x")] [("items", Val.list [Val.str "a"])]
    (by rfl) (by decide) (by decide) hnamed hstable
  exact ⟨by rfl, by decide, by decide, h, by rfl⟩

end Shareroom
